import Mathlib

/-!
Verification development for the diffdirs.nvim plugin (src/lib.rs, src/config.rs,
src/error.rs), a Neovim plugin that opens side-by-side diff tabs for two or three
directory trees.

The Rust source is shallowly embedded:

* The filesystem walk performed by `WalkDir` is modelled as a list of `Entry`
  values, each either a successfully enumerated entry (its full path and whether
  it is a regular file) or an enumeration error.  `collect_file_paths` folds over
  that list exactly as the Rust `filter_map`/`collect` pipeline does, building a
  `BTreeSet` (modelled as a sorted duplicate-free list built by `setInsert`) and a
  log of the messages printed for skipped entries.
* The Neovim host is modelled by `EditorState`: a trace of opened panes, the
  current/next tabpage handles, the next buffer handle, the set of tabpages the
  user has closed out-of-band, and the quickfix list.
* The plugin's thread-local state (`DIFF_FILES`, `DIFF_DIRS`, `CONFIG`) is
  modelled by `PluginState`; the `BTreeMap` is a key-sorted association list.
* Fallible host interactions that the claims depend on are the configured side
  hooks (`left_diff_opt_fn` / `right_diff_opt_fn`), modelled as optional
  functions returning `Except`.  Every operation returns the state reached so
  far together with an optional error, mirroring mutation-then-`?` propagation.
-/

namespace Diffdirs

/-! ## The path order

Rust's `BTreeSet<PathBuf>` / `BTreeMap<PathBuf, _>` order paths
component-wise and byte-wise; for the single-component relative paths handled
here this is the lexicographic byte order.  It is modelled as a structural
lexicographic comparison on the characters of a `String`, so that every
concrete instance computes. -/

/-- Lexicographic comparison of character lists by code point. -/
def charsLtB : List Char → List Char → Bool
  | [], [] => false
  | [], _ :: _ => true
  | _ :: _, [] => false
  | c :: cs, d :: ds =>
    if c.toNat < d.toNat then true
    else if d.toNat < c.toNat then false
    else charsLtB cs ds

/-- The strict order on paths used by the `BTreeSet`/`BTreeMap` model. -/
def strLtB (a b : String) : Bool := charsLtB a.data b.data

/-- `strLtB` as a relation. -/
def strLt (a b : String) : Prop := strLtB a b = true

theorem charsLtB_irrefl : ∀ l, charsLtB l l = false
  | [] => rfl
  | c :: cs => by simp [charsLtB, charsLtB_irrefl cs]

theorem charsLtB_asymm : ∀ l1 l2, charsLtB l1 l2 = true → charsLtB l2 l1 = false
  | [], [] => by simp [charsLtB]
  | [], _ :: _ => fun _ => rfl
  | _ :: _, [] => by simp [charsLtB]
  | c :: cs, d :: ds => by
    by_cases h1 : c.toNat < d.toNat
    · intro _
      have h2 : ¬ d.toNat < c.toNat := Nat.lt_asymm h1
      simp [charsLtB, h1, h2]
    · by_cases h2 : d.toNat < c.toNat
      · intro h
        simp [charsLtB, h1, h2] at h
      · intro h
        simp only [charsLtB, if_neg h1, if_neg h2] at h
        simp [charsLtB, h1, h2, charsLtB_asymm cs ds h]

theorem charsLtB_trans :
    ∀ l1 l2 l3, charsLtB l1 l2 = true → charsLtB l2 l3 = true → charsLtB l1 l3 = true
  | [], l2, l3 => by
    cases l2 with
    | nil => intro h12; cases h12
    | cons d ds =>
      cases l3 with
      | nil => intro _ h23; cases h23
      | cons e es => intro _ _; rfl
  | _ :: _, [], _ => by intro h12; cases h12
  | c :: cs, d :: ds, [] => by intro _ h23; cases h23
  | c :: cs, d :: ds, e :: es => by
    intro h12 h23
    by_cases hcd : c.toNat < d.toNat
    · by_cases hde : d.toNat < e.toNat
      · simp [charsLtB, Nat.lt_trans hcd hde]
      · by_cases hed : e.toNat < d.toNat
        · simp [charsLtB, hde, hed] at h23
        · have hde' : d.toNat = e.toNat :=
            Nat.le_antisymm (Nat.not_lt.mp hed) (Nat.not_lt.mp hde)
          simp [charsLtB, hde' ▸ hcd]
    · by_cases hdc : d.toNat < c.toNat
      · simp [charsLtB, hcd, hdc] at h12
      · have hcd' : c.toNat = d.toNat :=
          Nat.le_antisymm (Nat.not_lt.mp hdc) (Nat.not_lt.mp hcd)
        simp only [charsLtB, if_neg hcd, if_neg hdc] at h12
        by_cases hde : d.toNat < e.toNat
        · simp [charsLtB, hcd' ▸ hde]
        · by_cases hed : e.toNat < d.toNat
          · simp [charsLtB, hde, hed] at h23
          · have hde' : d.toNat = e.toNat :=
              Nat.le_antisymm (Nat.not_lt.mp hed) (Nat.not_lt.mp hde)
            simp only [charsLtB, if_neg hde, if_neg hed] at h23
            have hce : ¬ c.toNat < e.toNat := by
              rw [hcd', hde']; exact Nat.lt_irrefl _
            have hec : ¬ e.toNat < c.toNat := by
              rw [hcd', hde']; exact Nat.lt_irrefl _
            simp [charsLtB, hce, hec, charsLtB_trans cs ds es h12 h23]

theorem charsLtB_eq_of_not :
    ∀ l1 l2, charsLtB l1 l2 = false → charsLtB l2 l1 = false → l1 = l2
  | [], [] => by intro _ _; rfl
  | [], _ :: _ => by intro h12; cases h12
  | _ :: _, [] => by intro _ h21; cases h21
  | c :: cs, d :: ds => by
    intro h12 h21
    by_cases hcd : c.toNat < d.toNat
    · simp [charsLtB, hcd] at h12
    · by_cases hdc : d.toNat < c.toNat
      · simp [charsLtB, hdc] at h21
      · have hcd' : c.toNat = d.toNat :=
          Nat.le_antisymm (Nat.not_lt.mp hdc) (Nat.not_lt.mp hcd)
        have hchar : c = d := Char.eq_of_val_eq (UInt32.ext hcd')
        simp only [charsLtB, if_neg hcd, if_neg hdc] at h12 h21
        rw [hchar, charsLtB_eq_of_not cs ds h12 h21]

theorem strLt_irrefl (a : String) : ¬ strLt a a := by
  simp [strLt, strLtB, charsLtB_irrefl]

theorem strLt_asymm {a b : String} (h : strLt a b) : ¬ strLt b a := by
  simp [strLt, strLtB] at h ⊢
  simp [charsLtB_asymm _ _ h]

theorem strLt_trans {a b c : String} (h1 : strLt a b) (h2 : strLt b c) : strLt a c :=
  charsLtB_trans _ _ _ h1 h2

theorem strLt_total_of_ne {a b : String} (hne : a ≠ b) (h : ¬ strLt a b) : strLt b a := by
  rcases hba : strLtB b a with _ | _
  · exfalso
    have hab : strLtB a b = false := by
      rcases hab : strLtB a b with _ | _
      · rfl
      · exact absurd hab h
    exact hne (String.ext (charsLtB_eq_of_not _ _ hab hba))
  · exact hba

instance : IsIrrefl String strLt := ⟨strLt_irrefl⟩

instance : IsAntisymm String strLt :=
  ⟨fun _ _ h1 h2 => absurd h2 (strLt_asymm h1)⟩

/-! ## Filesystem model: `collect_file_paths` / `make_file_set` (lib.rs 169-201) -/

/-- One item produced by the `WalkDir` iterator: either a successfully
enumerated entry (absolute path plus its `file_type().is_file()` flag) or a
per-entry enumeration error carrying its display message. -/
inductive Entry where
  | ok (path : String) (isFile : Bool)
  | err (msg : String)
deriving DecidableEq, Repr

/-- Drop a literal character prefix, or fail. -/
def dropPrefixChars : List Char → List Char → Option (List Char)
  | [], rest => some rest
  | _ :: _, [] => none
  | p :: ps, c :: cs => if p = c then dropPrefixChars ps cs else none

/-- `Path::strip_prefix(dir)` for an entry found while walking `dir`:
succeeds when the entry path lives under `dir`, yielding the relative path. -/
def stripRoot (dir path : String) : Option String :=
  match dropPrefixChars (dir ++ "/").data path.data with
  | some rest => some ⟨rest⟩
  | none => none

/-- The body of the `filter_map` closure of `collect_file_paths` before error
handling: `Ok (some rel)` for a regular file under the root, `Ok none` for a
non-file entry, `Err` for an enumeration or strip error. -/
def processEntry (dir : String) : Entry → Except String (Option String)
  | .err msg => .error msg
  | .ok path isFile =>
    if isFile then
      match stripRoot dir path with
      | some rel => .ok (some rel)
      | none => .error "prefix not found"
    else .ok none

/-- Insertion into a `BTreeSet<PathBuf>` modelled on sorted lists: keeps the
list sorted (in `strLt` order) and drops duplicates. -/
def setInsert (x : String) : List String → List String
  | [] => [x]
  | y :: ys =>
    if strLtB x y then x :: y :: ys else if x = y then y :: ys else y :: setInsert x ys

/-- The message `collect_file_paths` prints when it skips an entry. -/
def logLine (dir msg : String) : String :=
  "error occurred during walking dir: " ++ dir ++ ". err: " ++ msg

/-- One step of the `collect` fold: accumulate the relative path of a regular
file, ignore non-files, and log-and-skip failures. -/
def collectStep (dir : String) (acc : List String × List String) (e : Entry) :
    List String × List String :=
  match processEntry dir e with
  | .ok (some p) => (setInsert p acc.1, acc.2)
  | .ok none => acc
  | .error msg => (acc.1, acc.2 ++ [logLine dir msg])

/-- `collect_file_paths` (lib.rs 169-195): folds the walk of `dir` into the set
of relative file paths, returning the set together with the printed log. -/
def collect_file_paths (dir : String) (walk : List Entry) : List String × List String :=
  walk.foldl (collectStep dir) ([], [])

/-- `make_file_set` (lib.rs 197-201): the set for the left root extended with
every path of the right root's set. -/
def make_file_set (left_dir : String) (wl : List Entry) (right_dir : String)
    (wr : List Entry) : List String :=
  (collect_file_paths right_dir wr).1.foldl (fun acc x => setInsert x acc)
    (collect_file_paths left_dir wl).1

/-- `p` is the relative path of a regular file enumerated under `dir`. -/
def isFileUnder (dir : String) (walk : List Entry) (p : String) : Prop :=
  ∃ full, Entry.ok full true ∈ walk ∧ stripRoot dir full = some p

/-! ## Host editor model -/

/-- Which side's window policy (and configured hook) was applied to a pane. -/
inductive Side where
  | left
  | right
deriving DecidableEq, Repr

/-- How a pane was created: the initial `edit`/`tabedit` window of a tab, a
`vertical diffsplit`, or a `botright diffsplit`. -/
inductive SplitKind where
  | window
  | vertical
  | botright
deriving DecidableEq, Repr

/-- One window opened by the plugin: the file shown, the tabpage it lives in,
its buffer handle, how it was split, and the window-local attributes the plugin
set on it. -/
structure Pane where
  file : String
  tab : Nat
  buf : Nat
  split : SplitKind
  winfixbuf : Bool
  modifiable : Bool
  hookApplied : Option Side
deriving DecidableEq, Repr

/-- One `setqflist` entry: `{bufnr, filename, text}` (lib.rs 251-255). -/
structure QfEntry where
  bufnr : Nat
  filename : String
  text : String
deriving DecidableEq, Repr

/-- The observable Neovim state the plugin manipulates.  `panes` is the trace
of windows the plugin opened (the current window is the last element);
tabpage handles are allocated from `nextTab`, buffer handles from `nextBuf`;
`closedTabs` records tabpages the user closed out-of-band (a handle is valid
iff it was allocated and not closed); `qflist` is the quickfix list. -/
structure EditorState where
  panes : List Pane
  curTab : Nat
  nextTab : Nat
  nextBuf : Nat
  closedTabs : List Nat
  qflist : List QfEntry
deriving DecidableEq, Repr

/-- Open a window showing `file`.  With `newTab = true` this is `tabedit`
(a fresh tabpage becomes current); otherwise the window joins the current
tabpage.  Window attributes start at Neovim defaults; the plugin overwrites
them right afterwards via the side policies. -/
def EditorState.openPane (e : EditorState) (file : String) (split : SplitKind)
    (newTab : Bool) : EditorState :=
  let tab := if newTab then e.nextTab else e.curTab
  { e with
    panes := e.panes ++ [⟨file, tab, e.nextBuf, split, false, true, none⟩]
    curTab := tab
    nextTab := if newTab then e.nextTab + 1 else e.nextTab
    nextBuf := e.nextBuf + 1 }

/-- Apply a function to the last element of a pane list (the current window). -/
def updateLast (f : Pane → Pane) : List Pane → List Pane
  | [] => []
  | [p] => [f p]
  | p :: q :: rest => p :: updateLast f (q :: rest)

/-- `set winfixbuf | set [no]modifiable` on the current window, together with
the record of which side policy was applied. -/
def EditorState.setCurWinOpts (e : EditorState) (modif : Bool) (side : Side) :
    EditorState :=
  { e with
    panes := updateLast
      (fun p => { p with winfixbuf := true, modifiable := modif, hookApplied := some side })
      e.panes }

/-- `api::get_current_win()`: the handle of the current window, modelled as its
index in the pane trace. -/
def EditorState.curWin (e : EditorState) : Nat := e.panes.length - 1

/-- `Buffer::current().handle()`: the buffer shown in the current window. -/
def EditorState.curBuf (e : EditorState) : Nat :=
  ((e.panes.getLast?).map Pane.buf).getD 0

/-- `TabPage::is_valid()`: the handle was allocated and the user has not closed
that tabpage. -/
def EditorState.isValid (e : EditorState) (t : Nat) : Bool :=
  decide (t < e.nextTab) && !(e.closedTabs.contains t)

/-- Out-of-band user action: closing a tabpage invalidates its handle. -/
def EditorState.closeTab (e : EditorState) (t : Nat) : EditorState :=
  { e with closedTabs := t :: e.closedTabs }

/-! ## Plugin state and operations (lib.rs 25-167, 203-323, config.rs) -/

/-- Errors; `other` is `DiffDirsError::other` (argument errors), `host` wraps a
failure of a host-editor interaction (here: a configured hook). -/
inductive Err where
  | other (msg : String)
  | host (msg : String)
deriving DecidableEq, Repr

/-- `config::Config`: the two optional side hooks, called with the finalized
window's handle; a hook may fail with a host error message. -/
structure Config where
  left_diff_opt_fn : Option (Nat → Except String Unit)
  right_diff_opt_fn : Option (Nat → Except String Unit)

/-- Call an optional hook: absent hooks succeed. -/
def Config.callHook : Option (Nat → Except String Unit) → Nat → Except String Unit
  | none, _ => .ok ()
  | some f, w => f w

/-- `DiffDirType` (lib.rs 25-29). -/
inductive DiffDirType where
  | two (left right : String)
  | three (left right output : String)
deriving DecidableEq, Repr

/-- The plugin's thread-local state: `DIFF_FILES` (a `BTreeMap<PathBuf,
TabPage>`, modelled as a key-sorted association list), `DIFF_DIRS`, `CONFIG`,
plus the host editor state it mutates. -/
structure PluginState where
  editor : EditorState
  diff_files : List (String × Nat)
  diff_dirs : DiffDirType
  config : Config

/-- `BTreeMap::get`. -/
def mapLookup : List (String × Nat) → String → Option Nat
  | [], _ => none
  | (k, v) :: rest, key => if key = k then some v else mapLookup rest key

/-- `get_mut` followed by `*tab = v`: replace the value of an existing key,
leaving absent keys absent. -/
def mapSet : List (String × Nat) → String → Nat → List (String × Nat)
  | [], _, _ => []
  | (k, v) :: rest, key, val =>
    if key = k then (k, val) :: rest else (k, v) :: mapSet rest key val

/-- `BTreeMap::insert` on the key-sorted association list. -/
def mapInsert : List (String × Nat) → String → Nat → List (String × Nat)
  | [], key, val => [(key, val)]
  | (k, v) :: rest, key, val =>
    if strLtB key k then (key, val) :: (k, v) :: rest
    else if key = k then (key, val) :: rest
    else (k, v) :: mapInsert rest key val

/-- `Path::join` as used on the roots (lib.rs 96-107, 235-243). -/
def joinPath (dir p : String) : String := dir ++ "/" ++ p

/-- `DiffTab` (lib.rs 265-273). -/
structure DiffTab where
  left_file : String
  right_file : String
  output_file : Option String
  config : Config

/-- `DiffTab::set_left_opt` (lib.rs 313-316) followed by
`Config::set_left_diff_opt` (config.rs 17-23): fix the buffer, make the window
non-modifiable, then call the configured left hook on the current window. -/
def DiffTab.set_left_opt (t : DiffTab) (e : EditorState) : EditorState × Option Err :=
  let e1 := e.setCurWinOpts false .left
  match Config.callHook t.config.left_diff_opt_fn e1.curWin with
  | .ok _ => (e1, none)
  | .error m => (e1, some (.host m))

/-- `DiffTab::set_right_opt` (lib.rs 319-322) followed by
`Config::set_right_diff_opt` (config.rs 25-31): fix the buffer, make the window
modifiable, then call the configured right hook on the current window. -/
def DiffTab.set_right_opt (t : DiffTab) (e : EditorState) : EditorState × Option Err :=
  let e1 := e.setCurWinOpts true .right
  match Config.callHook t.config.right_diff_opt_fn e1.curWin with
  | .ok _ => (e1, none)
  | .error m => (e1, some (.host m))

/-- `DiffTab::open` (lib.rs 276-310).  `is_first = true` issues `edit` (reusing
the current tabpage), otherwise `tabedit` (a fresh tabpage).  The left file is
opened first and receives the left (read-only) policy; the right file is opened
in a vertical diff split.  In three-way mode the right pane also receives the
left policy, the output file is opened in a bottom-right diff split, and the
right (editable) policy lands on the output pane; in two-way mode it lands on
the right pane. -/
def DiffTab.openTab (t : DiffTab) (is_first : Bool) (e0 : EditorState) :
    EditorState × Option Err :=
  let e1 := e0.openPane t.left_file .window (!is_first)
  match t.set_left_opt e1 with
  | (e2, some err) => (e2, some err)
  | (e2, none) =>
    let e3 := e2.openPane t.right_file .vertical false
    match t.output_file with
    | none => t.set_right_opt e3
    | some out =>
      match t.set_left_opt e3 with
      | (e4, some err) => (e4, some err)
      | (e4, none) =>
        let e5 := e4.openPane out .botright false
        t.set_right_opt e5

/-- `jump_to_diff_tab` (lib.rs 82-120): look the path up in `DIFF_FILES`; fail
if absent; focus the tabpage if its handle is still valid; otherwise rebuild a
single diff tab for the path (with `is_first = false`) from the stored roots
and overwrite that entry with the new current tabpage. -/
def jump_to_diff_tab (path : String) (s : PluginState) : PluginState × Option Err :=
  match mapLookup s.diff_files path with
  | none => (s, some (.other ("invalid diff path: " ++ path)))
  | some tab =>
    if s.editor.isValid tab then
      ({ s with editor := { s.editor with curTab := tab } }, none)
    else
      let t : DiffTab :=
        match s.diff_dirs with
        | .two left_dir right_dir =>
          ⟨joinPath left_dir path, joinPath right_dir path, none, s.config⟩
        | .three left_dir right_dir output_dir =>
          ⟨joinPath left_dir path, joinPath right_dir path,
            some (joinPath output_dir path), s.config⟩
      match t.openTab false s.editor with
      | (e, none) => ({ s with editor := e, diff_files := mapSet s.diff_files path e.curTab }, none)
      | (e, some err) => ({ s with editor := e }, some err)

/-- `diff_files` (lib.rs 73-80): the cached paths, in map (sorted) order. -/
def diff_files (s : PluginState) : List String := s.diff_files.map Prod.fst

/-- `DiffContext` (lib.rs 203-211). -/
structure DiffContext where
  left_dir : String
  right_dir : String
  output_dir : Option String
  config : Config

/-- The `modifiable_file` chosen for a path (lib.rs 242-248): the output-side
file in three-way mode, the right-side file in two-way mode. -/
def modFile (ctx : DiffContext) (file : String) : String :=
  match ctx.output_dir with
  | some o => joinPath o file
  | none => joinPath ctx.right_dir file

/-- The `DiffTab` built for one path of the loop (lib.rs 235-248). -/
def DiffContext.mkTab (ctx : DiffContext) (file : String) : DiffTab :=
  { left_file := joinPath ctx.left_dir file
    right_file := joinPath ctx.right_dir file
    output_file := ctx.output_dir.map (fun o => joinPath o file)
    config := ctx.config }

/-- The `for file in files` loop of `open_tabs` (lib.rs 234-258): open a diff
tab per path, append its quickfix entry (`'a'`), record path → current
tabpage into the fresh map, and propagate the first error, keeping all
mutations made so far. -/
def openLoop (ctx : DiffContext) (files : List String) (is_first : Bool)
    (acc : List (String × Nat)) (e : EditorState) :
    EditorState × List (String × Nat) × Option Err :=
  match files with
  | [] => (e, acc, none)
  | f :: fs =>
    match (ctx.mkTab f).openTab is_first e with
    | (e1, some err) => (e1, acc, some err)
    | (e1, none) =>
      let entry : QfEntry := ⟨e1.curBuf, modFile ctx f, f⟩
      let e2 := { e1 with qflist := e1.qflist ++ [entry] }
      openLoop ctx fs false (mapInsert acc f e1.curTab) e2

/-- The `DiffDirType` installed into `DIFF_DIRS` by `open_tabs`
(lib.rs 215-226). -/
def dirsOf (ctx : DiffContext) : DiffDirType :=
  match ctx.output_dir with
  | some o => .three ctx.left_dir ctx.right_dir o
  | none => .two ctx.left_dir ctx.right_dir

/-- `DiffContext::open_tabs` (lib.rs 214-262): install the new `DIFF_DIRS`,
resolve the file set, clear the quickfix list (`'r'`), run the loop, and on
success restore the captured first tabpage and swap `DIFF_FILES`; on failure
`DIFF_FILES` keeps its previous contents (`DIFF_DIRS` was already replaced). -/
def DiffContext.open_tabs (ctx : DiffContext) (wl wr : List Entry) (s : PluginState) :
    PluginState × Option Err :=
  let files := make_file_set ctx.left_dir wl ctx.right_dir wr
  let first_tabpage := s.editor.curTab
  let e0 := { s.editor with qflist := [] }
  match openLoop ctx files true [] e0 with
  | (e1, m, none) =>
    ({ s with
        diff_files := m
        diff_dirs := dirsOf ctx
        editor := { e1 with curTab := first_tabpage } }, none)
  | (e1, _, some err) => ({ s with diff_dirs := dirsOf ctx, editor := e1 }, some err)

/-- The state `DiffTab::open` reaches in two-way mode when every hook
succeeds: a left pane (read-only policy, left hook) and a right pane in a
vertical split (editable policy, right hook), in one tabpage that is fresh
iff `is_first` is false. -/
def twoWayResult (t : DiffTab) (first : Bool) (e : EditorState) : EditorState :=
  let tab := if first then e.curTab else e.nextTab
  { e with
    panes := e.panes ++
      [⟨t.left_file, tab, e.nextBuf, .window, true, false, some .left⟩,
       ⟨t.right_file, tab, e.nextBuf + 1, .vertical, true, true, some .right⟩]
    curTab := tab
    nextTab := if first then e.nextTab else e.nextTab + 1
    nextBuf := e.nextBuf + 2 }

/-- The state `DiffTab::open` reaches in three-way mode when every hook
succeeds: left and right panes both read-only with the left hook, and the
output pane in a bottom-right split with the editable policy and right hook. -/
def threeWayResult (t : DiffTab) (out : String) (first : Bool) (e : EditorState) :
    EditorState :=
  let tab := if first then e.curTab else e.nextTab
  { e with
    panes := e.panes ++
      [⟨t.left_file, tab, e.nextBuf, .window, true, false, some .left⟩,
       ⟨t.right_file, tab, e.nextBuf + 1, .vertical, true, false, some .left⟩,
       ⟨out, tab, e.nextBuf + 2, .botright, true, true, some .right⟩]
    curTab := tab
    nextTab := if first then e.nextTab else e.nextTab + 1
    nextBuf := e.nextBuf + 3 }

/-- `show_diff` (lib.rs 147-167): dispatch on the positional argument count;
`wl`/`wr` are the filesystem walks of the two source roots. -/
def show_diff (fargs : List String) (wl wr : List Entry) (s : PluginState) :
    PluginState × Option Err :=
  match fargs with
  | [left_dir, right_dir] =>
    (DiffContext.mk left_dir right_dir none s.config).open_tabs wl wr s
  | [left_dir, right_dir, output_dir] =>
    (DiffContext.mk left_dir right_dir (some output_dir) s.config).open_tabs wl wr s
  | _ => (s, some (.other "the number of arguments for DiffDirs command was not 2"))

/-! ## Concrete fixtures used by witnesses and counterexamples -/

/-- A configuration with no hooks (`setup` not given any callback). -/
def cfg0 : Config := ⟨none, none⟩

/-- A configuration whose left hook fails once windows with handle ≥ 4 appear
(a host-interaction failure surfacing mid-build). -/
def cfgFail : Config :=
  ⟨some (fun w => if 4 ≤ w then .error "left hook failed" else .ok ()), none⟩

/-- The editor at plugin load: one tabpage (handle 0), nothing opened. -/
def e0fix : EditorState := ⟨[], 0, 1, 0, [], []⟩

/-- The plugin state right after `setup`: empty cache, default `DIFF_DIRS`. -/
def sInit (c : Config) : PluginState := ⟨e0fix, [], .two "" "", c⟩

/-- Session A: two-way diff of `L1`/`R1` containing the single file `a`. -/
def ctxA : DiffContext := ⟨"L1", "R1", none, cfgFail⟩

/-- Walk of `L1` for session A. -/
def wlA : List Entry := [.ok "L1/a" true]

/-- Walk of `R1` for session A. -/
def wrA : List Entry := []

/-- The state after session A's successful build. -/
def sA : PluginState := (ctxA.open_tabs wlA wrA (sInit cfgFail)).1

/-- Session B: two-way diff of `L2`/`R2` containing files `b` and `c`; its
build fails on `c` because the left hook fails on window 4. -/
def ctxB : DiffContext := ⟨"L2", "R2", none, cfgFail⟩

/-- Walk of `L2` for session B. -/
def wlB : List Entry := [.ok "L2/b" true, .ok "L2/c" true]

/-- Walk of `R2` for session B. -/
def wrB : List Entry := []

/-- A hook-free two-way session over `L`/`R` with files `a` and `b`. -/
def ctxC : DiffContext := ⟨"L", "R", none, cfg0⟩

/-- Walk of `L` for session C: both files exist only under the left root. -/
def wlC : List Entry := [.ok "L/a" true, .ok "L/b" true]

/-- Walk of `R` for session C. -/
def wrC : List Entry := []

/-- The state after session C's successful build (`a` → tab 0, `b` → tab 1). -/
def sC0 : PluginState := (ctxC.open_tabs wlC wrC (sInit cfg0)).1

/-- Session C after the user closed the tabpage of `b`. -/
def sC : PluginState := { sC0 with editor := sC0.editor.closeTab 1 }

/-- A hook-free three-way session over `L`/`R`/`O` with the single file `a`. -/
def ctxO : DiffContext := ⟨"L", "R", some "O", cfg0⟩

/-- A three-way `DiffTab` for concrete witnesses. -/
def dtO : DiffTab := ⟨"L/a", "R/a", some "O/a", cfg0⟩

/-- A two-way `DiffTab` for concrete witnesses. -/
def dtT : DiffTab := ⟨"L/a", "R/a", none, cfg0⟩

/-- What a `jump` on a stale cached handle must achieve (the claim's reading
of lib.rs 90-117): exactly one fresh tabpage holding all the new panes, only
that path's cache entry overwritten, quickfix list and root set untouched,
and an immediately repeated `jump` reuses the fresh view without opening
anything. -/
def jumpRebuildSpec (s : PluginState) (path : String) : Prop :=
  (jump_to_diff_tab path s).1.editor.nextTab = s.editor.nextTab + 1 ∧
  (jump_to_diff_tab path s).1.editor.curTab = s.editor.nextTab ∧
  (∃ ps, ps ≠ [] ∧
    (jump_to_diff_tab path s).1.editor.panes = s.editor.panes ++ ps ∧
    ∀ p ∈ ps, p.tab = s.editor.nextTab) ∧
  (jump_to_diff_tab path s).1.diff_files = mapSet s.diff_files path s.editor.nextTab ∧
  mapLookup (jump_to_diff_tab path s).1.diff_files path = some s.editor.nextTab ∧
  (∀ q, q ≠ path →
    mapLookup (jump_to_diff_tab path s).1.diff_files q = mapLookup s.diff_files q) ∧
  (jump_to_diff_tab path s).1.editor.qflist = s.editor.qflist ∧
  (jump_to_diff_tab path s).1.diff_dirs = s.diff_dirs ∧
  jump_to_diff_tab path (jump_to_diff_tab path s).1 = ((jump_to_diff_tab path s).1, none)

/-! ## Lemmas about the resolver -/

theorem mem_setInsert (y x : String) (l : List String) :
    y ∈ setInsert x l ↔ y = x ∨ y ∈ l := by
  induction l with
  | nil => simp [setInsert]
  | cons z zs ih =>
    by_cases h1 : strLtB x z = true
    · simp [setInsert, h1]
    · by_cases h2 : x = z
      · subst h2
        have hx : setInsert x (x :: zs) = x :: zs := by
          simp only [setInsert, if_neg h1]
          exact if_pos trivial
        rw [hx]
        simp only [List.mem_cons]
        tauto
      · simp only [setInsert, if_neg h1, if_neg h2, List.mem_cons, ih]
        tauto

theorem sorted_setInsert (x : String) (l : List String) (h : l.Sorted strLt) :
    (setInsert x l).Sorted strLt := by
  induction l with
  | nil => simp [setInsert]
  | cons z zs ih =>
    rw [List.sorted_cons] at h
    obtain ⟨hz, hzs⟩ := h
    by_cases h1 : strLtB x z = true
    · simp only [setInsert, if_pos h1]
      rw [List.sorted_cons]
      refine ⟨?_, List.sorted_cons.mpr ⟨hz, hzs⟩⟩
      intro b hb
      rcases List.mem_cons.mp hb with hb | hb
      · exact hb ▸ h1
      · exact strLt_trans h1 (hz b hb)
    · by_cases h2 : x = z
      · simp only [setInsert, if_neg h1]
        rw [if_pos h2, List.sorted_cons]
        exact ⟨hz, hzs⟩
      · have h3 : strLt z x := strLt_total_of_ne h2 h1
        simp only [setInsert, if_neg h1, if_neg h2]
        rw [List.sorted_cons]
        refine ⟨?_, ih hzs⟩
        intro b hb
        rcases (mem_setInsert b x zs).mp hb with hb | hb
        · exact hb ▸ h3
        · exact hz b hb

theorem mem_foldl_setInsert (y : String) (xs init : List String) :
    y ∈ xs.foldl (fun acc x => setInsert x acc) init ↔ y ∈ init ∨ y ∈ xs := by
  induction xs generalizing init with
  | nil => simp
  | cons x xs ih =>
    rw [List.foldl_cons, ih, mem_setInsert]
    simp only [List.mem_cons]
    tauto

theorem sorted_foldl_setInsert (xs init : List String) (h : init.Sorted strLt) :
    (xs.foldl (fun acc x => setInsert x acc) init).Sorted strLt := by
  induction xs generalizing init with
  | nil => exact h
  | cons x xs ih => exact ih _ (sorted_setInsert x init h)

theorem foldl_collectStep_fst_sorted (dir : String) (walk : List Entry)
    (acc : List String × List String) (h : acc.1.Sorted strLt) :
    (walk.foldl (collectStep dir) acc).1.Sorted strLt := by
  induction walk generalizing acc with
  | nil => exact h
  | cons e es ih =>
    rw [List.foldl_cons]
    refine ih _ ?_
    unfold collectStep
    rcases processEntry dir e with m | op
    · exact h
    · rcases op with _ | p
      · exact h
      · exact sorted_setInsert p acc.1 h

theorem mem_foldl_collectStep_fst (dir p : String) (walk : List Entry)
    (acc : List String × List String) :
    p ∈ (walk.foldl (collectStep dir) acc).1 ↔
      p ∈ acc.1 ∨ ∃ e ∈ walk, processEntry dir e = .ok (some p) := by
  induction walk generalizing acc with
  | nil => simp
  | cons e es ih =>
    rw [List.foldl_cons, ih, List.exists_mem_cons_iff]
    rcases hpe : processEntry dir e with m | op
    · simp [collectStep, hpe]
    · rcases op with _ | q
      · simp [collectStep, hpe]
      · simp only [collectStep, hpe, mem_setInsert, Except.ok.injEq, Option.some.injEq]
        tauto

theorem foldl_collectStep_snd (dir : String) (walk : List Entry)
    (acc : List String × List String) :
    (walk.foldl (collectStep dir) acc).2 = acc.2 ++
      walk.filterMap (fun e =>
        match processEntry dir e with
        | .error m => some (logLine dir m)
        | _ => none) := by
  induction walk generalizing acc with
  | nil => simp
  | cons e es ih =>
    rw [List.foldl_cons, ih, List.filterMap_cons]
    rcases hpe : processEntry dir e with m | op
    · simp [collectStep, hpe]
    · rcases op with _ | q
      · simp [collectStep, hpe]
      · simp [collectStep, hpe]

theorem processEntry_ok_true (dir path : String) :
    processEntry dir (.ok path true) =
      match stripRoot dir path with
      | some rel => .ok (some rel)
      | none => .error "prefix not found" := rfl

theorem processEntry_eq_some (dir p : String) (e : Entry) :
    processEntry dir e = .ok (some p) ↔
      ∃ full, e = Entry.ok full true ∧ stripRoot dir full = some p := by
  rcases e with ⟨path, isFile⟩ | m
  · rcases isFile with _ | _
    · simp [processEntry]
    · rcases hsr : stripRoot dir path with _ | rel
      · rw [processEntry_ok_true, hsr]
        simp only [Entry.ok.injEq]
        constructor
        · intro h
          exact absurd h (by simp)
        · rintro ⟨full, ⟨h1, -⟩, hs2⟩
          subst h1
          rw [hsr] at hs2
          cases hs2
      · rw [processEntry_ok_true, hsr]
        simp only [Except.ok.injEq, Option.some.injEq, Entry.ok.injEq]
        constructor
        · rintro rfl
          exact ⟨path, ⟨rfl, trivial⟩, hsr⟩
        · rintro ⟨full, ⟨h1, -⟩, hs2⟩
          subst h1
          rw [hsr] at hs2
          exact Option.some.inj hs2
  · simp [processEntry]

theorem collect_file_paths_sorted (dir : String) (walk : List Entry) :
    (collect_file_paths dir walk).1.Sorted strLt :=
  foldl_collectStep_fst_sorted dir walk ([], []) (by simp)

theorem mem_collect_file_paths (dir p : String) (walk : List Entry) :
    p ∈ (collect_file_paths dir walk).1 ↔ isFileUnder dir walk p := by
  rw [collect_file_paths, mem_foldl_collectStep_fst]
  simp only [List.not_mem_nil, false_or]
  constructor
  · rintro ⟨e, he, hpe⟩
    obtain ⟨full, rfl, hstrip⟩ := (processEntry_eq_some dir p e).mp hpe
    exact ⟨full, he, hstrip⟩
  · rintro ⟨full, hmem, hstrip⟩
    exact ⟨Entry.ok full true, hmem,
      (processEntry_eq_some dir p _).mpr ⟨full, rfl, hstrip⟩⟩

theorem make_file_set_sorted (L R : String) (wl wr : List Entry) :
    (make_file_set L wl R wr).Sorted strLt :=
  sorted_foldl_setInsert _ _ (collect_file_paths_sorted L wl)

theorem mem_make_file_set (L R p : String) (wl wr : List Entry) :
    p ∈ make_file_set L wl R wr ↔ isFileUnder L wl p ∨ isFileUnder R wr p := by
  rw [make_file_set, mem_foldl_setInsert, mem_collect_file_paths,
    mem_collect_file_paths]

/-- C1: `make_file_set` returns the sorted, duplicate-free union of the
relative paths of regular files (not directories) found under the left or the
right root, and the result does not depend on the order in which the
filesystem walk enumerates entries. -/
theorem make_file_set_sorted_dedup_union (L R : String) (wl wr : List Entry) :
    (make_file_set L wl R wr).Sorted strLt ∧
    (make_file_set L wl R wr).Nodup ∧
    (∀ p, p ∈ make_file_set L wl R wr ↔ isFileUnder L wl p ∨ isFileUnder R wr p) ∧
    ∀ wl' wr', wl.Perm wl' → wr.Perm wr' →
      make_file_set L wl' R wr' = make_file_set L wl R wr := by
  refine ⟨make_file_set_sorted L R wl wr, (make_file_set_sorted L R wl wr).nodup,
    fun p => mem_make_file_set L R p wl wr, ?_⟩
  intro wl' wr' hpl hpr
  refine List.eq_of_perm_of_sorted ?_ (make_file_set_sorted L R wl' wr')
    (make_file_set_sorted L R wl wr)
  refine (List.perm_ext_iff_of_nodup (make_file_set_sorted L R wl' wr').nodup
    (make_file_set_sorted L R wl wr).nodup).mpr ?_
  intro p
  rw [mem_make_file_set, mem_make_file_set]
  unfold isFileUnder
  simp only [hpl.mem_iff, hpr.mem_iff]

/-- Witness for C1: permuting the walks of both roots leaves the resolved set
unchanged on a concrete example. -/
theorem make_file_set_sorted_dedup_union_witness :
    make_file_set "L" [Entry.ok "L/b" true, Entry.ok "L/a" true] "R" [Entry.ok "R/c" true] =
      make_file_set "L" [Entry.ok "L/a" true, Entry.ok "L/b" true] "R" [Entry.ok "R/c" true] :=
  (make_file_set_sorted_dedup_union "L" "R" [Entry.ok "L/a" true, Entry.ok "L/b" true]
      [Entry.ok "R/c" true]).2.2.2 [Entry.ok "L/b" true, Entry.ok "L/a" true]
      [Entry.ok "R/c" true] (List.Perm.swap _ _ _) (List.Perm.refl _)

/-- C6: a per-entry enumeration failure is logged and skipped — the resolved
set is the one obtained without the failing entry, and the resolve never
aborts; a root that does not exist (whose walk yields only the error entry)
contributes no paths. -/
theorem collect_file_paths_skips_errors (dir m : String) (w1 w2 : List Entry) :
    (collect_file_paths dir (w1 ++ Entry.err m :: w2)).1 =
      (collect_file_paths dir (w1 ++ w2)).1 ∧
    logLine dir m ∈ (collect_file_paths dir (w1 ++ Entry.err m :: w2)).2 ∧
    (collect_file_paths dir [Entry.err m]).1 = [] := by
  refine ⟨?_, ?_, rfl⟩
  · refine List.eq_of_perm_of_sorted ?_ (collect_file_paths_sorted _ _)
      (collect_file_paths_sorted _ _)
    refine (List.perm_ext_iff_of_nodup (collect_file_paths_sorted _ _).nodup
      (collect_file_paths_sorted _ _).nodup).mpr ?_
    intro p
    rw [mem_collect_file_paths, mem_collect_file_paths]
    unfold isFileUnder
    simp only [List.mem_append, List.mem_cons]
    constructor
    · rintro ⟨full, hmem, hstrip⟩
      rcases hmem with h | h | h
      · exact ⟨full, Or.inl h, hstrip⟩
      · exact absurd h (by simp)
      · exact ⟨full, Or.inr h, hstrip⟩
    · rintro ⟨full, hmem, hstrip⟩
      rcases hmem with h | h
      · exact ⟨full, Or.inl h, hstrip⟩
      · exact ⟨full, Or.inr (Or.inr h), hstrip⟩
  · rw [collect_file_paths, foldl_collectStep_snd]
    simp only [List.nil_append, List.filterMap_append, List.filterMap_cons,
      List.mem_append]
    right
    simp [processEntry]

/-! ## Lemmas about `DiffTab::open` -/

theorem updateLast_append (f : Pane → Pane) (l : List Pane) (p : Pane) :
    updateLast f (l ++ [p]) = l ++ [f p] := by
  induction l with
  | nil => rfl
  | cons q qs ih =>
    cases qs with
    | nil => rfl
    | cons r rs =>
      simp only [List.cons_append] at ih ⊢
      simp only [updateLast]
      rw [ih]

theorem updateLast_append2 (f : Pane → Pane) (l : List Pane) (a b : Pane) :
    updateLast f (l ++ [a, b]) = l ++ [a, f b] := by
  have h : l ++ [a, b] = (l ++ [a]) ++ [b] := by simp
  rw [h, updateLast_append]
  simp

theorem updateLast_append3 (f : Pane → Pane) (l : List Pane) (a b c : Pane) :
    updateLast f (l ++ [a, b, c]) = l ++ [a, b, f c] := by
  have h : l ++ [a, b, c] = (l ++ [a, b]) ++ [c] := by simp
  rw [h, updateLast_append]
  simp

theorem twoWay_chain (t : DiffTab) (first : Bool) (e : EditorState) :
    ((((e.openPane t.left_file .window (!first)).setCurWinOpts false .left).openPane
        t.right_file .vertical false).setCurWinOpts true .right) = twoWayResult t first e := by
  cases first <;>
    simp [EditorState.openPane, EditorState.setCurWinOpts, twoWayResult,
      updateLast_append, updateLast_append2, List.append_assoc, Nat.add_assoc]

theorem threeWay_chain (t : DiffTab) (out : String) (first : Bool) (e : EditorState) :
    ((((((e.openPane t.left_file .window (!first)).setCurWinOpts false .left).openPane
        t.right_file .vertical false).setCurWinOpts false .left).openPane
        out .botright false).setCurWinOpts true .right) = threeWayResult t out first e := by
  cases first <;>
    simp [EditorState.openPane, EditorState.setCurWinOpts, threeWayResult,
      updateLast_append, updateLast_append2, updateLast_append3, List.append_assoc,
      Nat.add_assoc]

theorem set_left_opt_ok (t : DiffTab) (e e2 : EditorState)
    (h : t.set_left_opt e = (e2, none)) : e2 = e.setCurWinOpts false .left := by
  rcases hc : Config.callHook t.config.left_diff_opt_fn
      ((e.setCurWinOpts false .left).curWin) with m | u <;>
    simp only [DiffTab.set_left_opt, hc] at h
  · rw [Prod.mk.injEq] at h
    exact absurd h.2 (by simp)
  · rw [Prod.mk.injEq] at h
    exact h.1.symm

theorem set_right_opt_ok (t : DiffTab) (e e2 : EditorState)
    (h : t.set_right_opt e = (e2, none)) : e2 = e.setCurWinOpts true .right := by
  rcases hc : Config.callHook t.config.right_diff_opt_fn
      ((e.setCurWinOpts true .right).curWin) with m | u <;>
    simp only [DiffTab.set_right_opt, hc] at h
  · rw [Prod.mk.injEq] at h
    exact absurd h.2 (by simp)
  · rw [Prod.mk.injEq] at h
    exact h.1.symm

/-- In two-way mode a successful `DiffTab::open` reaches exactly
`twoWayResult`: left pane read-only with the left hook, right pane editable
with the right hook in a vertical split, one (fresh unless `is_first`)
tabpage. -/
theorem openTab_ok_two (t : DiffTab) (hout : t.output_file = none) (first : Bool)
    (e e' : EditorState) (h : t.openTab first e = (e', none)) :
    e' = twoWayResult t first e := by
  rcases hL : t.set_left_opt (e.openPane t.left_file .window (!first)) with ⟨e2, rL⟩
  cases rL with
  | some err =>
    simp only [DiffTab.openTab, hout, hL] at h
    exact absurd ((Prod.mk.injEq ..).mp h).2 (by simp)
  | none =>
    simp only [DiffTab.openTab, hout, hL] at h
    rw [set_right_opt_ok t _ _ h, set_left_opt_ok t _ _ hL, twoWay_chain]

/-- In three-way mode a successful `DiffTab::open` reaches exactly
`threeWayResult`: left and right panes read-only with the left hook, output
pane editable with the right hook in a bottom-right split. -/
theorem openTab_ok_three (t : DiffTab) (out : String) (hout : t.output_file = some out)
    (first : Bool) (e e' : EditorState) (h : t.openTab first e = (e', none)) :
    e' = threeWayResult t out first e := by
  rcases hL : t.set_left_opt (e.openPane t.left_file .window (!first)) with ⟨e2, rL⟩
  cases rL with
  | some err =>
    simp only [DiffTab.openTab, hout, hL] at h
    exact absurd ((Prod.mk.injEq ..).mp h).2 (by simp)
  | none =>
    simp only [DiffTab.openTab, hout, hL] at h
    rcases hL2 : t.set_left_opt (e2.openPane t.right_file .vertical false) with ⟨e4, rL2⟩
    cases rL2 with
    | some err =>
      simp only [hL2] at h
      exact absurd ((Prod.mk.injEq ..).mp h).2 (by simp)
    | none =>
      simp only [hL2] at h
      rw [set_right_opt_ok t _ _ h, set_left_opt_ok t _ _ hL2,
        set_left_opt_ok t _ _ hL, threeWay_chain]

/-- Frame of a successful `DiffTab::open`: the quickfix list and the closed
tabpages are untouched, the current tabpage is fresh unless `is_first`, and
the new panes (a nonempty block) all live in that tabpage. -/
theorem openTab_ok_frame (t : DiffTab) (first : Bool) (e e' : EditorState)
    (h : t.openTab first e = (e', none)) :
    e'.qflist = e.qflist ∧ e'.closedTabs = e.closedTabs ∧
    e'.curTab = (if first then e.curTab else e.nextTab) ∧
    e'.nextTab = (if first then e.nextTab else e.nextTab + 1) ∧
    ∃ ps, ps ≠ [] ∧ e'.panes = e.panes ++ ps ∧
      ∀ p ∈ ps, p.tab = (if first then e.curTab else e.nextTab) := by
  rcases hout : t.output_file with _ | out
  · have := openTab_ok_two t hout first e e' h
    subst this
    cases first <;> simp [twoWayResult] <;> exact ⟨_, by simp, rfl, by simp⟩
  · have := openTab_ok_three t out hout first e e' h
    subst this
    cases first <;> simp [threeWayResult] <;> exact ⟨_, by simp, rfl, by simp⟩

/-! ## Lemmas about the cache map and the build loop -/

theorem mapLookup_mapSet_self (m : List (String × Nat)) (k : String) (v t : Nat)
    (h : mapLookup m k = some t) : mapLookup (mapSet m k v) k = some v := by
  induction m with
  | nil => cases h
  | cons p rest ih =>
    rcases p with ⟨k', v'⟩
    by_cases hk : k = k'
    · simp [mapSet, mapLookup, hk]
    · simp only [mapSet, mapLookup, if_neg hk] at h ⊢
      exact ih h

theorem mapLookup_mapSet_other (m : List (String × Nat)) (k : String) (v : Nat)
    (q : String) (hq : q ≠ k) : mapLookup (mapSet m k v) q = mapLookup m q := by
  induction m with
  | nil => rfl
  | cons p rest ih =>
    rcases p with ⟨k', v'⟩
    by_cases hk : k = k'
    · subst hk
      simp [mapSet, mapLookup, hq]
    · simp only [mapSet, mapLookup, if_neg hk]
      by_cases hq2 : q = k'
      · simp [mapLookup, hq2]
      · simp [mapLookup, hq2, ih]

theorem mapInsert_append (m : List (String × Nat)) (k : String) (v : Nat)
    (h : ∀ x ∈ m.map Prod.fst, strLt x k) : mapInsert m k v = m ++ [(k, v)] := by
  induction m with
  | nil => rfl
  | cons p rest ih =>
    rcases p with ⟨k', v'⟩
    have hk' : strLt k' k := h k' (by simp)
    have h1 : ¬ strLtB k k' = true := strLt_asymm hk'
    have h2 : k ≠ k' := fun he => strLt_irrefl k' (he ▸ hk')
    simp only [mapInsert, if_neg h1, if_neg h2, List.cons_append, List.cons.injEq, true_and]
    exact ih (fun x hx => h x (by simp [hx]))

/-- A successful build loop appends exactly one quickfix entry per file, with
`modFile` as its filename and the relative path as its text, and leaves the
closed-tab set alone. -/
theorem openLoop_ok_editor (ctx : DiffContext) (files : List String) (first : Bool)
    (acc : List (String × Nat)) (e e' : EditorState) (m' : List (String × Nat))
    (h : openLoop ctx files first acc e = (e', m', none)) :
    e'.qflist.map (fun q => (q.filename, q.text)) =
      e.qflist.map (fun q => (q.filename, q.text)) ++
        files.map (fun f => (modFile ctx f, f)) ∧
    e'.closedTabs = e.closedTabs := by
  induction files generalizing first acc e with
  | nil =>
    simp only [openLoop, Prod.mk.injEq] at h
    obtain ⟨h1, -, -⟩ := h
    subst h1
    simp
  | cons f fs ih =>
    rcases hOT : (ctx.mkTab f).openTab first e with ⟨e1, r1⟩
    cases r1 with
    | some err =>
      simp only [openLoop, hOT, Prod.mk.injEq] at h
      exact absurd h.2.2 (by simp)
    | none =>
      simp only [openLoop, hOT] at h
      obtain ⟨hqf, hct, -, -, -⟩ := openTab_ok_frame _ _ _ _ hOT
      obtain ⟨ih1, ih2⟩ := ih false (mapInsert acc f e1.curTab) _ h
      refine ⟨?_, by rw [ih2]; exact hct⟩
      rw [ih1]
      simp [hqf, List.append_assoc]

/-- A successful build loop over a sorted file list (whose elements all exceed
the keys accumulated so far) produces a map whose key list is exactly the
accumulated keys followed by the files. -/
theorem openLoop_ok_keys (ctx : DiffContext) (files : List String) (first : Bool)
    (acc : List (String × Nat)) (e e' : EditorState) (m' : List (String × Nat))
    (h : openLoop ctx files first acc e = (e', m', none))
    (hs : files.Sorted strLt)
    (hlt : ∀ k ∈ acc.map Prod.fst, ∀ f ∈ files, strLt k f) :
    m'.map Prod.fst = acc.map Prod.fst ++ files := by
  induction files generalizing first acc e with
  | nil =>
    simp only [openLoop, Prod.mk.injEq] at h
    obtain ⟨-, h2, -⟩ := h
    subst h2
    simp
  | cons f fs ih =>
    rcases hOT : (ctx.mkTab f).openTab first e with ⟨e1, r1⟩
    cases r1 with
    | some err =>
      simp only [openLoop, hOT, Prod.mk.injEq] at h
      exact absurd h.2.2 (by simp)
    | none =>
      simp only [openLoop, hOT] at h
      rw [List.sorted_cons] at hs
      obtain ⟨hf, hfs⟩ := hs
      have hacc : mapInsert acc f e1.curTab = acc ++ [(f, e1.curTab)] :=
        mapInsert_append _ _ _ (fun x hx => hlt x hx f (by simp))
      have hlt' : ∀ k ∈ (mapInsert acc f e1.curTab).map Prod.fst, ∀ g ∈ fs, strLt k g := by
        rw [hacc]
        intro k hk g hg
        simp only [List.map_append, List.mem_append, List.map_cons, List.map_nil,
          List.mem_cons, List.not_mem_nil, or_false] at hk
        rcases hk with hk | hk
        · exact hlt k hk g (by simp [hg])
        · exact hk ▸ hf g hg
      have := ih false (mapInsert acc f e1.curTab) _ h hfs hlt'
      rw [this, hacc]
      simp

/-! ## Inversion lemmas for `open_tabs` -/

theorem open_tabs_ok_inv (ctx : DiffContext) (wl wr : List Entry) (s : PluginState)
    (hok : (ctx.open_tabs wl wr s).2 = none) :
    ∃ e1 m, openLoop ctx (make_file_set ctx.left_dir wl ctx.right_dir wr) true []
        { s.editor with qflist := [] } = (e1, m, none) ∧
      (ctx.open_tabs wl wr s).1 =
        { s with
            diff_files := m
            diff_dirs := dirsOf ctx
            editor := { e1 with curTab := s.editor.curTab } } := by
  rcases hloop : openLoop ctx (make_file_set ctx.left_dir wl ctx.right_dir wr) true []
      { s.editor with qflist := [] } with ⟨e1, m, r⟩
  cases r with
  | none =>
    refine ⟨e1, m, rfl, ?_⟩
    simp only [DiffContext.open_tabs, hloop]
  | some err =>
    exfalso
    simp only [DiffContext.open_tabs, hloop] at hok
    exact Option.noConfusion hok

theorem open_tabs_err_inv (ctx : DiffContext) (wl wr : List Entry) (s : PluginState)
    (hng : (ctx.open_tabs wl wr s).2 ≠ none) :
    (ctx.open_tabs wl wr s).1.diff_files = s.diff_files := by
  rcases hloop : openLoop ctx (make_file_set ctx.left_dir wl ctx.right_dir wr) true []
      { s.editor with qflist := [] } with ⟨e1, m, r⟩
  cases r with
  | none =>
    exact absurd (by simp only [DiffContext.open_tabs, hloop]) hng
  | some err =>
    simp only [DiffContext.open_tabs, hloop]

theorem open_tabs_dirs (ctx : DiffContext) (wl wr : List Entry) (s : PluginState) :
    (ctx.open_tabs wl wr s).1.diff_dirs = dirsOf ctx := by
  rcases hloop : openLoop ctx (make_file_set ctx.left_dir wl ctx.right_dir wr) true []
      { s.editor with qflist := [] } with ⟨e1, m, r⟩
  cases r <;> simp only [DiffContext.open_tabs, hloop]

/-- On success the quickfix list published by `open_tabs` is exactly one entry
per resolved path, in order, with `modFile` as filename and the path as text —
independently of whatever the quickfix list held before. -/
theorem open_tabs_ok_qflist (ctx : DiffContext) (wl wr : List Entry) (s : PluginState)
    (hok : (ctx.open_tabs wl wr s).2 = none) :
    (ctx.open_tabs wl wr s).1.editor.qflist.map (fun q => (q.filename, q.text)) =
      (make_file_set ctx.left_dir wl ctx.right_dir wr).map (fun f => (modFile ctx f, f)) := by
  obtain ⟨e1, m, hloop, hres⟩ := open_tabs_ok_inv ctx wl wr s hok
  obtain ⟨hqf, -⟩ := openLoop_ok_editor _ _ _ _ _ _ _ hloop
  rw [hres]
  simpa using hqf

/-- On success the new cache's key list is exactly the resolved file set. -/
theorem open_tabs_ok_cache_keys (ctx : DiffContext) (wl wr : List Entry) (s : PluginState)
    (hok : (ctx.open_tabs wl wr s).2 = none) :
    (ctx.open_tabs wl wr s).1.diff_files.map Prod.fst =
      make_file_set ctx.left_dir wl ctx.right_dir wr := by
  obtain ⟨e1, m, hloop, hres⟩ := open_tabs_ok_inv ctx wl wr s hok
  have hkeys := openLoop_ok_keys ctx _ true [] _ e1 m hloop
    (make_file_set_sorted ctx.left_dir ctx.right_dir wl wr) (by simp)
  rw [hres]
  simpa using hkeys

/-! ## Claim theorems about `open_tabs` -/

/-- C2 (amended): after a *successful* `open_tabs` the cache key set equals
exactly the resolver output for the just-installed root set, with no carryover
from the previous session; but an `open_tabs` that fails mid-iteration leaves
the previous session's cache in place while the new root set has already been
installed, so at that observable point the invariant does not relate the cache
to the current root set. -/
theorem open_tabs_cache_invariant (ctx : DiffContext) (wl wr : List Entry)
    (s : PluginState) :
    ((ctx.open_tabs wl wr s).2 = none →
      (ctx.open_tabs wl wr s).1.diff_files.map Prod.fst =
        make_file_set ctx.left_dir wl ctx.right_dir wr) ∧
    ((ctx.open_tabs wl wr s).2 ≠ none →
      (ctx.open_tabs wl wr s).1.diff_files = s.diff_files) ∧
    (ctx.open_tabs wl wr s).1.diff_dirs = dirsOf ctx :=
  ⟨fun hok => open_tabs_ok_cache_keys ctx wl wr s hok,
   fun hng => open_tabs_err_inv ctx wl wr s hng,
   open_tabs_dirs ctx wl wr s⟩

/-- Witness for C2 (amended), on the concrete session C build. -/
theorem open_tabs_cache_invariant_witness :
    (ctxC.open_tabs wlC wrC (sInit cfg0)).1.diff_files.map Prod.fst =
      make_file_set ctxC.left_dir wlC ctxC.right_dir wrC ∧
    (ctxB.open_tabs wlB wrB sA).1.diff_files = sA.diff_files :=
  ⟨(open_tabs_cache_invariant ctxC wlC wrC (sInit cfg0)).1 (by decide),
   (open_tabs_cache_invariant ctxB wlB wrB sA).2.1 (by decide)⟩

/-- Counterexample to C2 as stated: session A (files `{a}` under `L1`/`R1`)
builds successfully; session B (files `{b, c}` under `L2`/`R2`) fails
mid-iteration because the configured left hook fails on its second file.
Afterwards the installed root set is session B's, yet the cache key set is
still session A's `["a"]`, not the resolver output `["b", "c"]` for the
current root set. -/
theorem open_tabs_cache_invariant_counterexample :
    (ctxA.open_tabs wlA wrA (sInit cfgFail)).2 = none ∧
    (ctxB.open_tabs wlB wrB sA).2 ≠ none ∧
    (ctxB.open_tabs wlB wrB sA).1.diff_dirs = DiffDirType.two "L2" "R2" ∧
    (ctxB.open_tabs wlB wrB sA).1.diff_files.map Prod.fst = ["a"] ∧
    make_file_set "L2" wlB "R2" wrB = ["b", "c"] ∧
    (ctxB.open_tabs wlB wrB sA).1.diff_files.map Prod.fst ≠
      make_file_set "L2" wlB "R2" wrB := by
  refine ⟨by decide, by decide, by decide, by decide, by decide, by decide⟩

/-- C5 (amended): on a successful full rebuild the published navigation list
is exactly the new build's entries — wholesale replacement, with no entry of
the previous list surviving — and the cache swapped in with it; however the
publication is incremental (cleared up front, appended per file), not atomic
with the cache swap, which a failing build exposes (see the counterexample). -/
theorem open_tabs_qflist_wholesale (ctx : DiffContext) (wl wr : List Entry)
    (s : PluginState) (hok : (ctx.open_tabs wl wr s).2 = none) :
    (ctx.open_tabs wl wr s).1.editor.qflist.map (fun q => (q.filename, q.text)) =
      (make_file_set ctx.left_dir wl ctx.right_dir wr).map (fun f => (modFile ctx f, f)) ∧
    (ctx.open_tabs wl wr s).1.diff_files.map Prod.fst =
      make_file_set ctx.left_dir wl ctx.right_dir wr :=
  ⟨open_tabs_ok_qflist ctx wl wr s hok, open_tabs_ok_cache_keys ctx wl wr s hok⟩

/-- Witness for C5 (amended) on the concrete session C build. -/
theorem open_tabs_qflist_wholesale_witness :
    (ctxC.open_tabs wlC wrC (sInit cfg0)).1.editor.qflist.map
        (fun q => (q.filename, q.text)) =
      (make_file_set ctxC.left_dir wlC ctxC.right_dir wrC).map
        (fun f => (modFile ctxC f, f)) ∧
    (ctxC.open_tabs wlC wrC (sInit cfg0)).1.diff_files.map Prod.fst =
      make_file_set ctxC.left_dir wlC ctxC.right_dir wrC :=
  open_tabs_qflist_wholesale ctxC wlC wrC (sInit cfg0) (by decide)

/-- Counterexample to C5 as stated: in session B's failing build the
navigation list has already been replaced and partially repopulated (it holds
exactly the entry for `b`, session A's entry for `a` is gone) while the cache
swap never happened — so the new list is *not* published together with the
atomic swap-in of the new cache after all paths have been opened. -/
theorem open_tabs_qflist_not_atomic_counterexample :
    (ctxB.open_tabs wlB wrB sA).2 ≠ none ∧
    sA.editor.qflist.map QfEntry.text = ["a"] ∧
    (ctxB.open_tabs wlB wrB sA).1.editor.qflist.map QfEntry.text = ["b"] ∧
    (ctxB.open_tabs wlB wrB sA).1.editor.qflist ≠ sA.editor.qflist ∧
    (ctxB.open_tabs wlB wrB sA).1.diff_files = sA.diff_files := by
  refine ⟨by decide, by decide, by decide, by decide, by decide⟩

/-- C4: under the three-way policy the left and right panes both receive the
read-only policy (fixed buffer, non-modifiable, left-side hook), the output
pane is opened in a bottom-right split with the editable policy (fixed buffer,
modifiable, right-side hook) — see `threeWayResult` — and every navigation
entry records the output-side file (not the right-side file) as the editable
reference for its path. -/
theorem threeway_policy :
    (∀ (t : DiffTab) (out : String) (first : Bool) (e : EditorState),
        t.output_file = some out → (t.openTab first e).2 = none →
        (t.openTab first e).1 = threeWayResult t out first e) ∧
    (∀ (ctx : DiffContext) (o : String) (wl wr : List Entry) (s : PluginState),
        ctx.output_dir = some o → (ctx.open_tabs wl wr s).2 = none →
        ∀ q ∈ (ctx.open_tabs wl wr s).1.editor.qflist,
          q.filename = joinPath o q.text) := by
  constructor
  · intro t out first e hout hok
    have heta : t.openTab first e = ((t.openTab first e).1, (t.openTab first e).2) := rfl
    rw [hok] at heta
    exact openTab_ok_three t out hout first e _ heta
  · intro ctx o wl wr s hout hok q hq
    have hqf := open_tabs_ok_qflist ctx wl wr s hok
    have hpair : (q.filename, q.text) ∈
        (ctx.open_tabs wl wr s).1.editor.qflist.map (fun q => (q.filename, q.text)) :=
      List.mem_map_of_mem _ hq
    rw [hqf] at hpair
    obtain ⟨f, -, hpq⟩ := List.mem_map.mp hpair
    rw [Prod.mk.injEq] at hpq
    obtain ⟨h1, h2⟩ := hpq
    rw [← h1, ← h2]
    simp [modFile, hout]

/-- Witness for C4 on concrete three-way inputs. -/
theorem threeway_policy_witness :
    (dtO.openTab false e0fix).1 = threeWayResult dtO "O/a" false e0fix ∧
    ∀ q ∈ (ctxO.open_tabs [Entry.ok "L/a" true] [] (sInit cfg0)).1.editor.qflist,
      q.filename = joinPath "O" q.text :=
  ⟨threeway_policy.1 dtO "O/a" false e0fix rfl (by decide),
   threeway_policy.2 ctxO "O" [Entry.ok "L/a" true] [] (sInit cfg0) rfl (by decide)⟩

/-- C10: in a two-way session the editable pane shows `right_dir/path` (see
`twoWayResult`: the modifiable pane with the right hook holds `right_file`),
and every navigation entry's filename is the path joined under the right root
— for every resolved path, including those that exist only under the left
root, so the editable target may name a file that does not exist yet. -/
theorem twoway_editable_is_right_side :
    (∀ (t : DiffTab) (first : Bool) (e : EditorState),
        t.output_file = none → (t.openTab first e).2 = none →
        (t.openTab first e).1 = twoWayResult t first e) ∧
    (∀ (ctx : DiffContext) (wl wr : List Entry) (s : PluginState),
        ctx.output_dir = none → (ctx.open_tabs wl wr s).2 = none →
        (ctx.open_tabs wl wr s).1.editor.qflist.map (fun q => (q.filename, q.text)) =
          (make_file_set ctx.left_dir wl ctx.right_dir wr).map
            (fun f => (joinPath ctx.right_dir f, f))) := by
  constructor
  · intro t first e hout hok
    have heta : t.openTab first e = ((t.openTab first e).1, (t.openTab first e).2) := rfl
    rw [hok] at heta
    exact openTab_ok_two t hout first e _ heta
  · intro ctx wl wr s hout hok
    have hqf := open_tabs_ok_qflist ctx wl wr s hok
    rw [hqf]
    simp [modFile, hout]

/-- Witness for C10: session C's files exist only under the left root, yet
every navigation entry names the right-root file. -/
theorem twoway_editable_is_right_side_witness :
    (dtT.openTab false e0fix).1 = twoWayResult dtT false e0fix ∧
    (ctxC.open_tabs wlC wrC (sInit cfg0)).1.editor.qflist.map
        (fun q => (q.filename, q.text)) =
      (make_file_set ctxC.left_dir wlC ctxC.right_dir wrC).map
        (fun f => (joinPath ctxC.right_dir f, f)) :=
  ⟨twoway_editable_is_right_side.1 dtT false e0fix rfl (by decide),
   twoway_editable_is_right_side.2 ctxC wlC wrC (sInit cfg0) rfl (by decide)⟩

/-! ## Claim theorems about `jump_to_diff_tab` and `show_diff` -/

theorem contains_eq_false_of_not_mem (x : Nat) (l : List Nat) (h : x ∉ l) :
    l.contains x = false := by
  induction l with
  | nil => rfl
  | cons y ys ih =>
    simp only [List.mem_cons, not_or] at h
    have h1 : ys.contains x = false := ih h.2
    have h2 : (x == y) = false := by simp [h.1]
    simp [List.contains_cons, h1, h2]
    exact ⟨h.1, h.2⟩

/-- Common part of the stale-handle `jump` analysis, once the rebuilt
`DiffTab` has been opened successfully. -/
theorem jump_rebuild_aux (s : PluginState) (path : String) (dt : DiffTab)
    (e1 : EditorState) (t : Nat)
    (hl : mapLookup s.diff_files path = some t)
    (hc : ∀ x ∈ s.editor.closedTabs, x < s.editor.nextTab)
    (hOT : dt.openTab false s.editor = (e1, none))
    (hjump : jump_to_diff_tab path s =
      ({ s with editor := e1, diff_files := mapSet s.diff_files path e1.curTab }, none)) :
    jumpRebuildSpec s path := by
  obtain ⟨hqf, hct, hcur, hnt, ps, hne, hpanes, htab⟩ :=
    openTab_ok_frame dt false s.editor e1 hOT
  simp only [Bool.false_eq_true, if_false] at hcur hnt htab
  unfold jumpRebuildSpec
  rw [hjump]
  have hlook : mapLookup (mapSet s.diff_files path e1.curTab) path = some e1.curTab :=
    mapLookup_mapSet_self s.diff_files path e1.curTab t hl
  refine ⟨hnt, hcur, ⟨ps, hne, hpanes, htab⟩, by rw [hcur], ?_, ?_, hqf, rfl, ?_⟩
  · rw [← hcur]
    exact hlook
  · intro q hq
    exact mapLookup_mapSet_other s.diff_files path e1.curTab q hq
  · have hcontains : s.editor.closedTabs.contains s.editor.nextTab = false :=
      contains_eq_false_of_not_mem _ _ (fun hm => absurd (hc _ hm) (Nat.lt_irrefl _))
    have hvalid : e1.isValid e1.curTab = true := by
      rw [EditorState.isValid, hcur, hnt, hct, hcontains]
      simp
    simp only [jump_to_diff_tab, hlook, hvalid, if_true]

/-- C3: a `jump` to a path whose cached handle is stale (and that succeeds,
i.e. no configured hook fails during the rebuild) opens exactly one new
comparison view — one fresh tabpage holding every new pane, created with
`is_first = false` — overwrites only that path's cache entry with the new
handle, leaves the navigation list and root set untouched, and an immediately
repeated `jump` to the same path reuses the new view without opening another
(the state is unchanged).  The hypothesis on `closedTabs` states that the user
can only ever have closed tabpages that actually existed. -/
theorem jump_stale_rebuilds_single_view (s : PluginState) (path : String) (t : Nat)
    (hl : mapLookup s.diff_files path = some t)
    (hv : s.editor.isValid t = false)
    (hc : ∀ x ∈ s.editor.closedTabs, x < s.editor.nextTab)
    (hok : (jump_to_diff_tab path s).2 = none) :
    jumpRebuildSpec s path := by
  rcases hd : s.diff_dirs with ⟨l, r⟩ | ⟨l, r, o⟩
  · rcases hOT : (DiffTab.mk (joinPath l path) (joinPath r path) none s.config).openTab
        false s.editor with ⟨e1, r1⟩
    cases r1 with
    | some err =>
      exfalso
      simp only [jump_to_diff_tab, hl, hv, hd, hOT, Bool.false_eq_true, if_false] at hok
      exact Option.noConfusion hok
    | none =>
      refine jump_rebuild_aux s path _ e1 t hl hc hOT ?_
      simp only [jump_to_diff_tab, hl, hv, hd, hOT, Bool.false_eq_true, if_false]
  · rcases hOT : (DiffTab.mk (joinPath l path) (joinPath r path)
        (some (joinPath o path)) s.config).openTab false s.editor with ⟨e1, r1⟩
    cases r1 with
    | some err =>
      exfalso
      simp only [jump_to_diff_tab, hl, hv, hd, hOT, Bool.false_eq_true, if_false] at hok
      exact Option.noConfusion hok
    | none =>
      refine jump_rebuild_aux s path _ e1 t hl hc hOT ?_
      simp only [jump_to_diff_tab, hl, hv, hd, hOT, Bool.false_eq_true, if_false]

/-- Witness for C3: in session C the user closed the tabpage of `b`; jumping
to `b` rebuilds exactly one view and a repeated jump reuses it. -/
theorem jump_stale_rebuilds_single_view_witness : jumpRebuildSpec sC "b" :=
  jump_stale_rebuilds_single_view sC "b" 1 (by decide) (by decide) (by decide) (by decide)

/-- C7: a `jump` to a path absent from the current cache fails with the
argument error `invalid diff path: ...` and leaves the entire state — cache,
root set, navigation list, panes — unchanged. -/
theorem jump_absent_fails (s : PluginState) (path : String)
    (h : mapLookup s.diff_files path = none) :
    jump_to_diff_tab path s = (s, some (Err.other ("invalid diff path: " ++ path))) := by
  simp only [jump_to_diff_tab, h]

/-- Witness for C7 on session C's state. -/
theorem jump_absent_fails_witness :
    jump_to_diff_tab "zz" sC0 =
      (sC0, some (Err.other ("invalid diff path: " ++ "zz"))) :=
  jump_absent_fails sC0 "zz" (by decide)

/-- C8: a `jump` to a path whose cached handle is still valid only changes the
focused tabpage to that handle; no pane is opened and the cache, the root set
and the navigation list are unchanged. -/
theorem jump_valid_refocus (s : PluginState) (path : String) (t : Nat)
    (hl : mapLookup s.diff_files path = some t)
    (hv : s.editor.isValid t = true) :
    jump_to_diff_tab path s = ({ s with editor := { s.editor with curTab := t } }, none) ∧
    (jump_to_diff_tab path s).1.editor.panes = s.editor.panes ∧
    (jump_to_diff_tab path s).1.editor.nextTab = s.editor.nextTab ∧
    (jump_to_diff_tab path s).1.editor.qflist = s.editor.qflist ∧
    (jump_to_diff_tab path s).1.diff_files = s.diff_files ∧
    (jump_to_diff_tab path s).1.diff_dirs = s.diff_dirs := by
  have h : jump_to_diff_tab path s =
      ({ s with editor := { s.editor with curTab := t } }, none) := by
    simp only [jump_to_diff_tab, hl, hv, if_true]
  exact ⟨h, by rw [h], by rw [h], by rw [h], by rw [h], by rw [h]⟩

/-- Witness for C8 on session C's state (the handle of `a` is valid). -/
theorem jump_valid_refocus_witness :
    jump_to_diff_tab "a" sC0 =
      ({ sC0 with editor := { sC0.editor with curTab := 0 } }, none) :=
  (jump_valid_refocus sC0 "a" 0 (by decide) (by decide)).1

/-- C9: a command invocation whose positional argument count is neither 2 nor
3 fails with the argument-count error and performs no further action — the
returned state is the input state, so no pane is opened and neither the cache
nor the root set is mutated. -/
theorem show_diff_bad_arity (args : List String) (wl wr : List Entry)
    (s : PluginState) (h2 : args.length ≠ 2) (h3 : args.length ≠ 3) :
    show_diff args wl wr s =
      (s, some (Err.other "the number of arguments for DiffDirs command was not 2")) := by
  rcases args with _ | ⟨a, _ | ⟨b, _ | ⟨c, _ | ⟨d, rest⟩⟩⟩⟩
  · rfl
  · rfl
  · exact absurd rfl h2
  · exact absurd rfl h3
  · rfl

/-- Witness for C9: one argument (and the same shape covers four). -/
theorem show_diff_bad_arity_witness :
    show_diff ["only"] [] [] (sInit cfg0) =
      (sInit cfg0,
        some (Err.other "the number of arguments for DiffDirs command was not 2")) :=
  show_diff_bad_arity ["only"] [] [] (sInit cfg0) (by decide) (by decide)

end Diffdirs
